import Mathlib

/-!
Verification development for the `email-alias-core` cryptographic core of the
email-gateway-cloudflare repository.

The core consists of three functions (from the library's `index.ts`, with the
crypto shim in `crypto.ts` supplying the platform HMAC primitive):

* `generateEmailAlias` - builds a deterministic HMAC-tagged email alias
  `<parts joined by "-">-<keyHint><truncatedHash>@<domain>`;
* `validateEmailAlias` - parses an untrusted alias with the regular expression
  `^(.*)-([a-f0-9]{hashLength})@(.+)$`, filters the key ring by a 2-hex-char
  key hint, and compares truncated HMAC-SHA-256 signatures;
* `generateSecureRandomString` - base64url-encodes platform random bytes.

JavaScript strings are modelled as `List Char` (`null`/`undefined` inputs as
`Option`), byte buffers as `List Nat` with values below 256, and the platform
HMAC-SHA-256 primitive is implemented concretely (`hmacSha256`, validated
below against the library's fixed test vectors).  The greedy backtracking
semantics of the anchored JavaScript regex is modelled by `aliasMatch`: the
match succeeds at the largest feasible split position (`.*` is greedy), `.`
excludes the four JavaScript line terminators, and `{hashLength}` is a fixed
repetition count.  JavaScript's `substring` clamps negative end positions to
zero, which coincides with truncated subtraction on `Nat`.
-/

/-! ## 32-bit arithmetic helpers and SHA-256 -/

/-- Modulus for 32-bit arithmetic. -/
def mod32 : Nat := 4294967296

/-- Right rotation of a 32-bit word. -/
def rotr32 (n x : Nat) : Nat := ((x >>> n) ||| (x <<< (32 - n))) % mod32

/-- The SHA-256 round constants (FIPS 180-4, written in decimal). -/
def shaK : List Nat :=
  [1116352408, 1899447441, 3049323471, 3921009573, 961987163, 1508970993,
   2453635748, 2870763221, 3624381080, 310598401, 607225278, 1426881987,
   1925078388, 2162078206, 2614888103, 3248222580, 3835390401, 4022224774,
   264347078, 604807628, 770255983, 1249150122, 1555081692, 1996064986,
   2554220882, 2821834349, 2952996808, 3210313671, 3336571891, 3584528711,
   113926993, 338241895, 666307205, 773529912, 1294757372, 1396182291,
   1695183700, 1986661051, 2177026350, 2456956037, 2730485921, 2820302411,
   3259730800, 3345764771, 3516065817, 3600352804, 4094571909, 275423344,
   430227734, 506948616, 659060556, 883997877, 958139571, 1322822218,
   1537002063, 1747873779, 1955562222, 2024104815, 2227730452, 2361852424,
   2428436474, 2756734187, 3204031479, 3329325298]

/-- The SHA-256 initial hash state (FIPS 180-4, written in decimal). -/
def shaInit : List Nat :=
  [1779033703, 3144134277, 1013904242, 2773480762, 1359893119, 2600822924,
   528734635, 1541459225]

/-- SHA-256 message padding: `0x80`, zeros to 56 mod 64, then the 64-bit
big-endian bit length. -/
def padMessage (msg : List Nat) : List Nat :=
  let len := msg.length
  let zeros := (119 - len % 64) % 64
  let bitLen := len * 8
  msg ++ [0x80] ++ List.replicate zeros 0 ++
    [(bitLen >>> 56) % 256, (bitLen >>> 48) % 256, (bitLen >>> 40) % 256, (bitLen >>> 32) % 256,
     (bitLen >>> 24) % 256, (bitLen >>> 16) % 256, (bitLen >>> 8) % 256, bitLen % 256]

/-- Split a byte list into 64-byte blocks (fuelled structural recursion so the
kernel can evaluate it). -/
def chunks64Aux : Nat → List Nat → List (List Nat)
  | 0, _ => []
  | _, [] => []
  | fuel + 1, l => l.take 64 :: chunks64Aux fuel (l.drop 64)

/-- Split a byte list into 64-byte blocks. -/
def chunks64 (l : List Nat) : List (List Nat) := chunks64Aux l.length l

/-- Big-endian 32-bit words from bytes. -/
def toWordsBE : List Nat → List Nat
  | b0 :: b1 :: b2 :: b3 :: rest => (((b0 * 256 + b1) * 256 + b2) * 256 + b3) :: toWordsBE rest
  | _ => []

/-- One extension step of the SHA-256 message schedule. -/
def schedStep (w : List Nat) : List Nat :=
  let i := w.length
  let x15 := w.getD (i - 15) 0
  let x2 := w.getD (i - 2) 0
  let s0 := (rotr32 7 x15) ^^^ (rotr32 18 x15) ^^^ (x15 >>> 3)
  let s1 := (rotr32 17 x2) ^^^ (rotr32 19 x2) ^^^ (x2 >>> 10)
  w ++ [(w.getD (i - 16) 0 + s0 + w.getD (i - 7) 0 + s1) % mod32]

/-- Iterate the message-schedule extension. -/
def buildSchedule (w : List Nat) : Nat → List Nat
  | 0 => w
  | n + 1 => buildSchedule (schedStep w) n

/-- One SHA-256 compression round on the 8-word state. -/
def shaRound (k w : Nat) : List Nat → List Nat
  | [a, b, c, d, e, f, g, h] =>
    let s1 := (rotr32 6 e) ^^^ (rotr32 11 e) ^^^ (rotr32 25 e)
    let ch := (e &&& f) ^^^ ((e ^^^ 4294967295) &&& g)
    let temp1 := (h + s1 + ch + k + w) % mod32
    let s0 := (rotr32 2 a) ^^^ (rotr32 13 a) ^^^ (rotr32 22 a)
    let maj := (a &&& b) ^^^ (a &&& c) ^^^ (b &&& c)
    let temp2 := (s0 + maj) % mod32
    [(temp1 + temp2) % mod32, a, b, c, (d + temp1) % mod32, e, f, g]
  | st => st

/-- Compress one 64-byte block into the hash state. -/
def compressBlock (h : List Nat) (block : List Nat) : List Nat :=
  let w := buildSchedule (toWordsBE block) 48
  let st := (List.zip shaK w).foldl (fun st kw => shaRound kw.1 kw.2 st) h
  (List.zip h st).map (fun p => (p.1 + p.2) % mod32)

/-- Big-endian bytes of a 32-bit word. -/
def wordToBytesBE (w : Nat) : List Nat :=
  [(w >>> 24) % 256, (w >>> 16) % 256, (w >>> 8) % 256, w % 256]

/-- SHA-256 of a byte list. -/
def sha256 (msg : List Nat) : List Nat :=
  (((chunks64 (padMessage msg)).foldl compressBlock shaInit).map wordToBytesBE).flatten

/-- HMAC-SHA-256 (RFC 2104) over byte lists; this is the primitive the
platform's `crypto.subtle.sign("HMAC", ...)` computes. -/
def hmacSha256 (key msg : List Nat) : List Nat :=
  let k0 := if key.length > 64 then sha256 key else key
  let kpad := k0 ++ List.replicate (64 - k0.length) 0
  sha256 ((kpad.map (fun b => b ^^^ 0x5c)) ++ sha256 ((kpad.map (fun b => b ^^^ 0x36)) ++ msg))

/-! ## UTF-8 and hexadecimal encoding -/

/-- UTF-8 encoding of a single scalar value, as `TextEncoder` produces. -/
def utf8EncodeChar (c : Char) : List Nat :=
  let n := c.toNat
  if n < 0x80 then [n]
  else if n < 0x800 then [0xC0 ||| (n >>> 6), 0x80 ||| (n &&& 0x3F)]
  else if n < 0x10000 then
    [0xE0 ||| (n >>> 12), 0x80 ||| ((n >>> 6) &&& 0x3F), 0x80 ||| (n &&& 0x3F)]
  else
    [0xF0 ||| (n >>> 18), 0x80 ||| ((n >>> 12) &&& 0x3F), 0x80 ||| ((n >>> 6) &&& 0x3F),
     0x80 ||| (n &&& 0x3F)]

/-- `new TextEncoder().encode(s)`: the UTF-8 bytes of a string. -/
def textEncode (s : List Char) : List Nat := (s.map utf8EncodeChar).flatten

/-- Lowercase hexadecimal digit for a value below 16. -/
def hexDigitChar (n : Nat) : Char :=
  if n < 10 then Char.ofNat (48 + n) else Char.ofNat (87 + n)

/-- The two lowercase hex digits of one byte (`b.toString(16).padStart(2,"0")`). -/
def byteToHex (b : Nat) : List Char := [hexDigitChar (b / 16 % 16), hexDigitChar (b % 16)]

/-- `_bufferToHex`: lowercase hex encoding of a byte buffer. -/
def bufferToHex (bs : List Nat) : List Char := (bs.map byteToHex).flatten

/-! ## The alias regular expression

`validateEmailAlias` parses with `new RegExp("^(.*)-([a-f0-9]{n})@(.+)$")`.
With JavaScript's backtracking semantics this matches iff the string splits as
`A ++ "-" ++ H ++ "@" ++ D` with `H` exactly `n` lowercase hex digits, `D`
non-empty, and `A`, `D` free of line terminators (`.` excludes them); among
the feasible splits the greedy `.*` selects the one with the longest `A`. -/

/-- The character class `[a-f0-9]`. -/
def isLowerHexDigit (c : Char) : Bool :=
  (97 ≤ c.toNat && c.toNat ≤ 102) || (48 ≤ c.toNat && c.toNat ≤ 57)

/-- JavaScript line terminators, the characters `.` does not match. -/
def isLineTerminator (c : Char) : Bool :=
  c.toNat = 10 || c.toNat = 13 || c.toNat = 8232 || c.toNat = 8233

/-- A character matched by `.` in a JavaScript regex without the `s` flag. -/
def isDotChar (c : Char) : Bool := !isLineTerminator c

/-- Try to match the alias pattern with group 1 of length exactly `i`. -/
def splitCheck (n : Nat) (s : List Char) (i : Nat) :
    Option (List Char × List Char × List Char) :=
  match s.drop i with
  | [] => none
  | c :: r =>
    if c = '-' then
      match r.drop n with
      | [] => none
      | c2 :: D =>
        if c2 = '@' then
          let A := s.take i
          let H := r.take n
          if H.all isLowerHexDigit && !D.isEmpty && A.all isDotChar && D.all isDotChar then
            some (A, H, D)
          else none
        else none
    else none

/-- Search split positions from `i` downwards, preferring the longest group 1. -/
def searchSplit (n : Nat) (s : List Char) : Nat → Option (List Char × List Char × List Char)
  | 0 => splitCheck n s 0
  | i + 1 =>
    match splitCheck n s (i + 1) with
    | some r => some r
    | none => searchSplit n s i

/-- `fullAlias.match(aliasRegex)`: the greedy match of
`^(.*)-([a-f0-9]{n})@(.+)$`, as the triple of capture groups. -/
def aliasMatch (n : Nat) (s : List Char) : Option (List Char × List Char × List Char) :=
  searchSplit n s s.length

/-! ## The core functions (from the library's `index.ts`) -/

/-- `_getHmacSignature(secretKey, data)`: HMAC-SHA-256 over the UTF-8
encodings, as a byte buffer. -/
def getHmacSignature (secretKey data : List Char) : List Nat :=
  hmacSha256 (textEncode secretKey) (textEncode data)

/-- The 2-hex-char key hint: `_bufferToHex(encode(key).slice(0, 1)).substring(0, 2)`,
computed identically at generation and validation. -/
def hintOfKey (key : List Char) : List Char :=
  (bufferToHex ((textEncode key).take 1)).take 2

/-- `aliasParts.join("-")`. -/
def joinParts (parts : List (List Char)) : List Char := List.intercalate ['-'] parts

/-- `generateEmailAlias({secretKey, aliasParts, domain, hashLength})`.
An `Error` thrown in JavaScript is `.error`; the runtime element-type check on
`aliasParts` is vacuous here since parts are strings by type. -/
def generateEmailAlias (secretKey : List Char) (aliasParts : List (List Char))
    (domain : List Char) (hashLength : Nat) : Except String (List Char) :=
  if aliasParts.isEmpty then
    .error "The aliasParts array cannot be empty."
  else
    let localPart := joinParts aliasParts
    let fullHash := bufferToHex (getHmacSignature secretKey localPart)
    let keyHint := hintOfKey secretKey
    let truncatedHash := fullHash.take (hashLength - 2)
    .ok (localPart ++ '-' :: (keyHint ++ truncatedHash) ++ '@' :: domain)

/-- `keysRecipientMap[secretKey]` followed by the defensive
`typeof recipient === "string"` check: a missing key yields `""`. -/
def lookupRecipient (m : List (List Char × List Char)) (key : List Char) : List Char :=
  match m.find? (fun p => p.1 == key) with
  | some p => p.2
  | none => []

/-- The candidate loop of `validateEmailAlias`, generic in the HMAC primitive:
recompute the truncated signature for each candidate key and return the first
match's recipient. -/
def checkCandidates (hmac : List Char → List Char → List Nat)
    (m : List (List Char × List Char)) (localPart actualHash : List Char)
    (hashLength : Nat) : List (List Char) → List Char
  | [] => []
  | k :: rest =>
    let expectedHash := (bufferToHex (hmac k localPart)).take (hashLength - 2)
    if expectedHash == actualHash then lookupRecipient m k
    else checkCandidates hmac m localPart actualHash hashLength rest

/-- `validateEmailAlias({keysRecipientMap, fullAlias, hashLength})`, generic in
the HMAC primitive.  `fullAlias = none` models `null`/`undefined`; the map is
an insertion-ordered association list (JavaScript object keys are distinct).
Soft failures produce `[]`, the empty string. -/
def validateEmailAliasWith (hmac : List Char → List Char → List Nat)
    (m : List (List Char × List Char)) (fullAlias : Option (List Char))
    (hashLength : Nat) : List Char :=
  match fullAlias with
  | none => []
  | some a =>
    if a.isEmpty then []
    else
      match aliasMatch hashLength a with
      | none => []
      | some (localPart, providedHash, _) =>
        if localPart.isEmpty || providedHash.isEmpty then []
        else
          let keyHint := providedHash.take 2
          let actualHash := providedHash.drop 2
          let candidateKeys := (m.map Prod.fst).filter (fun k => hintOfKey k == keyHint)
          checkCandidates hmac m localPart actualHash hashLength candidateKeys

/-- `validateEmailAlias` with the platform HMAC-SHA-256 primitive. -/
def validateEmailAlias (m : List (List Char × List Char)) (fullAlias : Option (List Char))
    (hashLength : Nat) : List Char :=
  validateEmailAliasWith getHmacSignature m fullAlias hashLength

/-- The candidate loop with a fallible HMAC primitive, mirroring the source's
control flow exactly: `await _getHmacSignature(...)` has no surrounding
`try`/`catch`, so a rejection propagates. -/
def checkCandidatesE (hmac : List Char → List Char → Except String (List Nat))
    (m : List (List Char × List Char)) (localPart actualHash : List Char)
    (hashLength : Nat) : List (List Char) → Except String (List Char)
  | [] => .ok []
  | k :: rest => do
    let sig ← hmac k localPart
    let expectedHash := (bufferToHex sig).take (hashLength - 2)
    if expectedHash == actualHash then .ok (lookupRecipient m k)
    else checkCandidatesE hmac m localPart actualHash hashLength rest

/-- `validateEmailAlias` with a fallible HMAC primitive: `.error` is a rejected
promise reaching the caller, `.ok` a normal return. -/
def validateEmailAliasE (hmac : List Char → List Char → Except String (List Nat))
    (m : List (List Char × List Char)) (fullAlias : Option (List Char))
    (hashLength : Nat) : Except String (List Char) :=
  match fullAlias with
  | none => .ok []
  | some a =>
    if a.isEmpty then .ok []
    else
      match aliasMatch hashLength a with
      | none => .ok []
      | some (localPart, providedHash, _) =>
        if localPart.isEmpty || providedHash.isEmpty then .ok []
        else
          let keyHint := providedHash.take 2
          let actualHash := providedHash.drop 2
          let candidateKeys := (m.map Prod.fst).filter (fun k => hintOfKey k == keyHint)
          checkCandidatesE hmac m localPart actualHash hashLength candidateKeys

/-! ## `generateSecureRandomString` -/

/-- The standard base64 alphabet character for a 6-bit value. -/
def base64Char (n : Nat) : Char :=
  if n < 26 then Char.ofNat (65 + n)
  else if n < 52 then Char.ofNat (97 + (n - 26))
  else if n < 62 then Char.ofNat (48 + (n - 52))
  else if n = 62 then '+' else '/'

/-- Standard base64 encoding with `=` padding, as `Buffer.toString("base64")`
and `btoa` produce. -/
def base64Encode : List Nat → List Char
  | [] => []
  | [b0] => [base64Char (b0 >>> 2), base64Char ((b0 &&& 3) <<< 4), '=', '=']
  | [b0, b1] =>
    [base64Char (b0 >>> 2), base64Char (((b0 &&& 3) <<< 4) ||| (b1 >>> 4)),
     base64Char ((b1 &&& 15) <<< 2), '=']
  | b0 :: b1 :: b2 :: rest =>
    base64Char (b0 >>> 2) :: base64Char (((b0 &&& 3) <<< 4) ||| (b1 >>> 4)) ::
    base64Char (((b1 &&& 15) <<< 2) ||| (b2 >>> 6)) :: base64Char (b2 &&& 63) ::
    base64Encode rest

/-- The per-character URL-safe replacement: `+` to `-`, `/` to `_`. -/
def urlSafeChar (c : Char) : Char :=
  if c == '+' then '-' else if c == '/' then '_' else c

/-- The URL-safe transformation: `+` to `-`, `/` to `_`, strip `=` padding. -/
def toUrlSafe (l : List Char) : List Char :=
  (l.map urlSafeChar).filter (fun c => !(c == '='))

/-- `Math.ceil((length * 3) / 4) + 2`. -/
def bytesNeeded (len : Nat) : Nat := (len * 3 + 3) / 4 + 2

/-- `generateSecureRandomString(length)`.  The platform random source is the
parameter `getRandomValues` (size of the `Uint8Array` to fill, in bytes);
`Nat` models the already-integer lengths, so of the source's
`!Number.isInteger(length) || length <= 0` guard only the `length = 0` case is
representable. -/
def generateSecureRandomString (getRandomValues : Nat → List Nat) (len : Nat) :
    Except String (List Char) :=
  if len == 0 then .error "Length must be a positive integer."
  else
    let randomBytes := getRandomValues (bytesNeeded len)
    .ok ((toUrlSafe (base64Encode randomBytes)).take len)

/-- The character class `[A-Za-z0-9_-]` of URL-safe base64 output. -/
def isBase64UrlChar (c : Char) : Bool :=
  (65 ≤ c.toNat && c.toNat ≤ 90) || (97 ≤ c.toNat && c.toNat ≤ 122) ||
  (48 ≤ c.toNat && c.toNat ≤ 57) || c.toNat = 45 || c.toNat = 95

/-! ## Supporting lemmas: hex encoding, hash lengths, key hints -/

lemma all_of_subset {l₁ l₂ : List Char} {p : Char → Bool} (hsub : l₁ ⊆ l₂)
    (h : l₂.all p = true) : l₁.all p = true := by
  rw [List.all_eq_true] at *
  exact fun x hx => h x (hsub hx)

lemma hexDigitChar_hex {n : Nat} (h : n < 16) : isLowerHexDigit (hexDigitChar n) = true := by
  interval_cases n <;> decide

lemma byteToHex_hex (b : Nat) : (byteToHex b).all isLowerHexDigit = true := by
  have h1 : b / 16 % 16 < 16 := Nat.mod_lt _ (by omega)
  have h2 : b % 16 < 16 := Nat.mod_lt _ (by omega)
  simp [byteToHex, hexDigitChar_hex h1, hexDigitChar_hex h2]

lemma bufferToHex_hex (bs : List Nat) : (bufferToHex bs).all isLowerHexDigit = true := by
  induction bs with
  | nil => rfl
  | cons b rest ih =>
    simp only [bufferToHex, List.map_cons, List.flatten_cons, List.all_append]
    simp only [bufferToHex] at ih
    rw [byteToHex_hex, ih]
    rfl

lemma bufferToHex_length (bs : List Nat) : (bufferToHex bs).length = 2 * bs.length := by
  induction bs with
  | nil => rfl
  | cons b rest ih =>
    simp only [bufferToHex, List.map_cons, List.flatten_cons, List.length_append] at *
    rw [ih]
    simp [byteToHex]
    omega

lemma hex_bounds {c : Char} (h : isLowerHexDigit c = true) :
    (97 ≤ c.toNat ∧ c.toNat ≤ 102) ∨ (48 ≤ c.toNat ∧ c.toNat ≤ 57) := by
  simp only [isLowerHexDigit, Bool.or_eq_true, Bool.and_eq_true, decide_eq_true_eq] at h
  exact h

lemma hex_ne_dash {c : Char} (h : isLowerHexDigit c = true) : c ≠ '-' := by
  intro he
  subst he
  revert h
  decide

lemma hex_ne_at {c : Char} (h : isLowerHexDigit c = true) : c ≠ '@' := by
  intro he
  subst he
  revert h
  decide

lemma hex_isDotChar {c : Char} (h : isLowerHexDigit c = true) : isDotChar c = true := by
  have hb := hex_bounds h
  simp only [isDotChar, isLineTerminator, Bool.not_eq_true', Bool.or_eq_false_iff,
    decide_eq_false_iff_not]
  omega

lemma all_hex_all_dot {l : List Char} (h : l.all isLowerHexDigit = true) :
    l.all isDotChar = true := by
  rw [List.all_eq_true] at *
  exact fun x hx => hex_isDotChar (h x hx)

lemma shaRound_length (k w : Nat) (st : List Nat) : (shaRound k w st).length = st.length := by
  unfold shaRound
  split <;> simp

lemma foldl_shaRound_length (l : List (Nat × Nat)) (st : List Nat) :
    (l.foldl (fun st kw => shaRound kw.1 kw.2 st) st).length = st.length := by
  induction l generalizing st with
  | nil => rfl
  | cons kw rest ih => rw [List.foldl_cons, ih, shaRound_length]

lemma compressBlock_length (h block : List Nat) (hh : h.length = 8) :
    (compressBlock h block).length = 8 := by
  unfold compressBlock
  simp [List.length_zip, foldl_shaRound_length, hh]

lemma foldl_compressBlock_length (bl : List (List Nat)) (h : List Nat) (hh : h.length = 8) :
    (bl.foldl compressBlock h).length = 8 := by
  induction bl generalizing h with
  | nil => exact hh
  | cons b rest ih => exact ih _ (compressBlock_length _ _ hh)

lemma flatten_map_wordToBytesBE_length (l : List Nat) :
    ((l.map wordToBytesBE).flatten).length = 4 * l.length := by
  induction l with
  | nil => rfl
  | cons w rest ih =>
    simp only [List.map_cons, List.flatten_cons, List.length_append, ih, wordToBytesBE,
      List.length_cons, List.length_nil]
    omega

lemma sha256_length (msg : List Nat) : (sha256 msg).length = 32 := by
  unfold sha256
  rw [flatten_map_wordToBytesBE_length, foldl_compressBlock_length]
  rfl

lemma getHmacSignature_length (k d : List Char) : (getHmacSignature k d).length = 32 := by
  unfold getHmacSignature hmacSha256
  exact sha256_length _

lemma utf8EncodeChar_ne_nil (c : Char) : utf8EncodeChar c ≠ [] := by
  unfold utf8EncodeChar
  dsimp only
  split_ifs <;> simp

lemma textEncode_ne_nil {s : List Char} (h : s ≠ []) : textEncode s ≠ [] := by
  obtain ⟨c, rest, rfl⟩ := List.exists_cons_of_ne_nil h
  simp only [textEncode, List.map_cons, List.flatten_cons, ne_eq, List.append_eq_nil]
  intro ⟨h1, _⟩
  exact utf8EncodeChar_ne_nil c h1

lemma hintOfKey_eq_byteToHex {k : List Char} (h : k ≠ []) :
    ∃ b rest, textEncode k = b :: rest ∧ hintOfKey k = byteToHex b := by
  obtain ⟨b, rest, heq⟩ := List.exists_cons_of_ne_nil (textEncode_ne_nil h)
  refine ⟨b, rest, heq, ?_⟩
  unfold hintOfKey
  rw [heq]
  simp [bufferToHex, byteToHex]

lemma hintOfKey_length {k : List Char} (h : k ≠ []) : (hintOfKey k).length = 2 := by
  obtain ⟨b, rest, _, hh⟩ := hintOfKey_eq_byteToHex h
  rw [hh]
  rfl

lemma hintOfKey_hex (k : List Char) : (hintOfKey k).all isLowerHexDigit = true :=
  all_of_subset (List.take_subset _ _) (bufferToHex_hex _)

/-! ## Characterization of the greedy alias match -/

lemma splitCheck_eq_some {n : Nat} {s A H D : List Char} {i : Nat}
    (h : splitCheck n s i = some (A, H, D)) :
    A = s.take i ∧ A.length = i ∧ s = A ++ '-' :: (H ++ '@' :: D) ∧ H.length = n ∧
    H.all isLowerHexDigit = true ∧ D ≠ [] ∧ A.all isDotChar = true ∧ D.all isDotChar = true := by
  unfold splitCheck at h
  split at h
  next => simp at h
  next c r heq =>
    split at h
    case isFalse => simp at h
    case isTrue hdash =>
      subst hdash
      split at h
      next => simp at h
      next c2 D' heq2 =>
        split at h
        case isFalse => simp at h
        case isTrue hat =>
          subst hat
          dsimp only at h
          split at h
          case isFalse => simp at h
          case isTrue hcond =>
            simp only [Option.some.injEq, Prod.mk.injEq] at h
            obtain ⟨hA, hH, hD⟩ := h
            subst hA hH hD
            rw [Bool.and_eq_true, Bool.and_eq_true, Bool.and_eq_true] at hcond
            obtain ⟨⟨⟨h1, h2⟩, h3⟩, h4⟩ := hcond
            have hiln : i < s.length := by
              by_contra hc
              rw [List.drop_eq_nil_of_le (by omega)] at heq
              exact List.noConfusion heq
            have hrn : n < r.length := by
              by_contra hc
              rw [List.drop_eq_nil_of_le (by omega)] at heq2
              exact List.noConfusion heq2
            refine ⟨rfl, by simp [List.length_take]; omega, ?_, by simp [List.length_take]; omega,
              h1, by simpa using h2, h3, h4⟩
            conv_lhs => rw [← List.take_append_drop i s]
            rw [heq]
            congr 1
            congr 1
            conv_lhs => rw [← List.take_append_drop n r]
            rw [heq2]

lemma splitCheck_intro {n : Nat} {A H D : List Char}
    (hH : H.length = n) (hhex : H.all isLowerHexDigit = true) (hD : D ≠ [])
    (hAdot : A.all isDotChar = true) (hDdot : D.all isDotChar = true) :
    splitCheck n (A ++ '-' :: (H ++ '@' :: D)) A.length = some (A, H, D) := by
  subst hH
  unfold splitCheck
  rw [List.drop_left]
  dsimp only
  rw [if_pos rfl, List.drop_left]
  dsimp only
  rw [if_pos rfl, List.take_left, List.take_left]
  rw [hhex, hAdot, hDdot]
  have : D.isEmpty = false := by simpa [List.isEmpty_eq_false] using hD
  rw [this]
  rfl

lemma splitCheck_of_length_le {n : Nat} {s : List Char} {i : Nat} (h : s.length ≤ i) :
    splitCheck n s i = none := by
  unfold splitCheck
  rw [List.drop_eq_nil_of_le h]

lemma searchSplit_eq_some {n : Nat} {s : List Char} {t : List Char × List Char × List Char}
    {i : Nat} (h : searchSplit n s i = some t) :
    ∃ j, j ≤ i ∧ splitCheck n s j = some t ∧
      ∀ j', j < j' → j' ≤ i → splitCheck n s j' = none := by
  induction i with
  | zero => exact ⟨0, le_refl 0, h, fun j' h1 h2 => absurd (Nat.lt_of_lt_of_le h1 h2) (by omega)⟩
  | succ i ih =>
    simp only [searchSplit] at h
    cases hsc : splitCheck n s (i + 1) with
    | some r =>
      rw [hsc] at h
      simp only [Option.some.injEq] at h
      subst h
      exact ⟨i + 1, le_refl _, hsc, fun j' h1 h2 => by omega⟩
    | none =>
      rw [hsc] at h
      obtain ⟨j, hj, hsp, hnone⟩ := ih h
      refine ⟨j, by omega, hsp, fun j' h1 h2 => ?_⟩
      rcases Nat.lt_or_ge j' (i + 1) with hlt | hge
      · exact hnone j' h1 (by omega)
      · have : j' = i + 1 := by omega
        rw [this]
        exact hsc

lemma searchSplit_intro {n : Nat} {s : List Char} {t : List Char × List Char × List Char}
    {j : Nat} (hsp : splitCheck n s j = some t) :
    ∀ {i : Nat}, j ≤ i → (∀ j', j < j' → j' ≤ i → splitCheck n s j' = none) →
    searchSplit n s i = some t := by
  intro i
  induction i with
  | zero =>
    intro hj _
    have : j = 0 := by omega
    subst this
    simpa [searchSplit] using hsp
  | succ i ih =>
    intro hj hnone
    simp only [searchSplit]
    rcases Nat.eq_or_lt_of_le hj with heq | hlt
    · rw [← heq, hsp]
    · have h1 : splitCheck n s (i + 1) = none := hnone (i + 1) (by omega) (le_refl _)
      rw [h1]
      exact ih (by omega) (fun j' a b => hnone j' a (by omega))

lemma aliasMatch_eq_some {n : Nat} {s A H D : List Char}
    (h : aliasMatch n s = some (A, H, D)) :
    s = A ++ '-' :: (H ++ '@' :: D) ∧ H.length = n ∧ H.all isLowerHexDigit = true ∧
    D ≠ [] ∧ A.all isDotChar = true ∧ D.all isDotChar = true ∧
    ∀ j, A.length < j → splitCheck n s j = none := by
  obtain ⟨j, hj, hsp, hnone⟩ := searchSplit_eq_some h
  obtain ⟨hA, hAl, hs, hH, hhex, hD, hAdot, hDdot⟩ := splitCheck_eq_some hsp
  refine ⟨hs, hH, hhex, hD, hAdot, hDdot, fun j' hj' => ?_⟩
  rcases Nat.lt_or_ge j' (s.length + 1) with hlt | hge
  · exact hnone j' (by omega) (by omega)
  · exact splitCheck_of_length_le (by omega)

lemma aliasMatch_intro {n : Nat} {s A H D : List Char}
    (hs : s = A ++ '-' :: (H ++ '@' :: D)) (hH : H.length = n)
    (hhex : H.all isLowerHexDigit = true) (hD : D ≠ [])
    (hAdot : A.all isDotChar = true) (hDdot : D.all isDotChar = true)
    (hmax : ∀ j, A.length < j → splitCheck n s j = none) :
    aliasMatch n s = some (A, H, D) := by
  have hsp : splitCheck n s A.length = some (A, H, D) := by
    rw [hs]
    exact splitCheck_intro hH hhex hD hAdot hDdot
  have hlen : A.length ≤ s.length := by
    rw [hs]
    simp [List.length_append]
  exact searchSplit_intro hsp hlen (fun j' a _ => hmax j' a)

lemma aliasMatch_eq_none {n : Nat} {s : List Char}
    (h : ∀ j, splitCheck n s j = none) : aliasMatch n s = none := by
  cases hm : aliasMatch n s with
  | none => rfl
  | some t =>
    obtain ⟨j, _, hsp, _⟩ := searchSplit_eq_some hm
    rw [h j] at hsp
    exact Option.noConfusion hsp

lemma splitCheck_none_within {n : Nat} {A H D s : List Char}
    (hs : s = A ++ '-' :: (H ++ '@' :: D)) (hhex : H.all isLowerHexDigit = true)
    {j : Nat} (h1 : A.length < j) (h2 : j ≤ A.length + 1 + H.length) :
    splitCheck n s j = none := by
  obtain ⟨t, htj, htH⟩ : ∃ t, j = A.length + 1 + t ∧ t ≤ H.length := ⟨j - A.length - 1, by omega⟩
  have hdrop : s.drop j = H.drop t ++ ('@' :: D).drop (t - H.length) := by
    rw [hs, List.drop_append_eq_append_drop, List.drop_eq_nil_of_le (by omega)]
    simp only [List.nil_append]
    have e1 : j - A.length = t + 1 := by omega
    rw [e1, List.drop_succ_cons, List.drop_append_eq_append_drop]
  unfold splitCheck
  rw [hdrop]
  cases hHd : H.drop t with
  | nil =>
    have htH2 : H.length ≤ t := by
      have hl := List.length_drop t H
      rw [hHd] at hl
      simp at hl
      omega
    have he : t - H.length = 0 := by omega
    rw [he]
    simp only [List.nil_append, List.drop_zero]
    try dsimp only
    rw [if_neg (by decide)]
  | cons c u =>
    have hcne : c ≠ '-' := by
      have hcH : c ∈ H := List.drop_subset _ H (by rw [hHd]; exact List.mem_cons_self c u)
      exact hex_ne_dash ((List.all_eq_true.mp hhex) c hcH)
    simp only [List.cons_append]
    try dsimp only
    rw [if_neg hcne]

lemma splitCheck_none_beyond {n : Nat} {A H D s : List Char}
    (hs : s = A ++ '-' :: (H ++ '@' :: D)) (hD : '@' ∉ D)
    {j : Nat} (h1 : A.length + 1 + H.length < j) :
    splitCheck n s j = none := by
  obtain ⟨t, htj⟩ : ∃ t, j = A.length + 1 + H.length + 1 + t := ⟨j - A.length - H.length - 2, by omega⟩
  have hdrop : s.drop j = D.drop t := by
    rw [hs, List.drop_append_eq_append_drop, List.drop_eq_nil_of_le (by omega)]
    simp only [List.nil_append]
    have e1 : j - A.length = (H.length + 1 + t) + 1 := by omega
    rw [e1, List.drop_succ_cons, List.drop_append_eq_append_drop,
      List.drop_eq_nil_of_le (by omega)]
    simp only [List.nil_append]
    have e2 : H.length + 1 + t - H.length = t + 1 := by omega
    rw [e2, List.drop_succ_cons]
  unfold splitCheck
  rw [hdrop]
  cases hDd : D.drop t with
  | nil => rfl
  | cons c u =>
    dsimp only
    split
    · cases hud : u.drop n with
      | nil => rfl
      | cons c2 D2 =>
        have hne : c2 ≠ '@' := by
          intro he
          subst he
          have hm1 : '@' ∈ u := List.drop_subset _ u (by rw [hud]; exact List.mem_cons_self _ _)
          have hm2 : '@' ∈ D :=
            List.drop_subset _ D (by rw [hDd]; exact List.mem_cons_of_mem c hm1)
          exact hD hm2
        try dsimp only
        rw [if_neg hne]
    · rfl
lemma splitCheck_none_of_gt {n : Nat} {A H D s : List Char}
    (hs : s = A ++ '-' :: (H ++ '@' :: D)) (hhex : H.all isLowerHexDigit = true)
    (hD : '@' ∉ D) {j : Nat} (h1 : A.length < j) : splitCheck n s j = none := by
  rcases le_or_lt j (A.length + 1 + H.length) with h2 | h2
  · exact splitCheck_none_within hs hhex h1 h2
  · exact splitCheck_none_beyond hs hD h2

lemma aliasMatch_of_clean {n : Nat} {s A H D : List Char}
    (hs : s = A ++ '-' :: (H ++ '@' :: D)) (hH : H.length = n)
    (hhex : H.all isLowerHexDigit = true) (hD : D ≠ []) (hDat : '@' ∉ D)
    (hAdot : A.all isDotChar = true) (hDdot : D.all isDotChar = true) :
    aliasMatch n s = some (A, H, D) :=
  aliasMatch_intro hs hH hhex hD hAdot hDdot
    (fun _ hj => splitCheck_none_of_gt hs hhex hDat hj)

/-! ## Unfolding lemmas for validation -/

lemma validateWith_parsed (h : List Char → List Char → List Nat)
    (m : List (List Char × List Char)) {a A H D : List Char} {n : Nat}
    (hm : aliasMatch n a = some (A, H, D)) (hA : A ≠ []) (hH : H ≠ []) (ha : a ≠ []) :
    validateEmailAliasWith h m (some a) n =
      checkCandidates h m A (H.drop 2) n
        ((m.map Prod.fst).filter (fun k => hintOfKey k == H.take 2)) := by
  have h1 : a.isEmpty = false := List.isEmpty_eq_false.mpr ha
  have h2 : A.isEmpty = false := List.isEmpty_eq_false.mpr hA
  have h3 : H.isEmpty = false := List.isEmpty_eq_false.mpr hH
  simp only [validateEmailAliasWith, h1, hm, h2, h3, Bool.false_eq_true, if_false,
    Bool.or_self]

lemma validateE_parsed (h : List Char → List Char → Except String (List Nat))
    (m : List (List Char × List Char)) {a A H D : List Char} {n : Nat}
    (hm : aliasMatch n a = some (A, H, D)) (hA : A ≠ []) (hH : H ≠ []) (ha : a ≠ []) :
    validateEmailAliasE h m (some a) n =
      checkCandidatesE h m A (H.drop 2) n
        ((m.map Prod.fst).filter (fun k => hintOfKey k == H.take 2)) := by
  have h1 : a.isEmpty = false := List.isEmpty_eq_false.mpr ha
  have h2 : A.isEmpty = false := List.isEmpty_eq_false.mpr hA
  have h3 : H.isEmpty = false := List.isEmpty_eq_false.mpr hH
  simp only [validateEmailAliasE, h1, hm, h2, h3, Bool.false_eq_true, if_false,
    Bool.or_self]

lemma validateWith_unparsed (h : List Char → List Char → List Nat)
    (m : List (List Char × List Char)) {a : List Char} {n : Nat}
    (hm : aliasMatch n a = none) :
    validateEmailAliasWith h m (some a) n = [] := by
  unfold validateEmailAliasWith
  cases he : a.isEmpty with
  | true => simp [hm]
  | false => simp [hm]

lemma generateEmailAlias_eq {k : List Char} {parts : List (List Char)} {d : List Char} {n : Nat}
    (hp : parts ≠ []) :
    generateEmailAlias k parts d n = .ok (joinParts parts ++ '-' ::
      ((hintOfKey k ++ (bufferToHex (getHmacSignature k (joinParts parts))).take (n - 2))) ++
      '@' :: d) := by
  have h1 : parts.isEmpty = false := List.isEmpty_eq_false.mpr hp
  simp only [generateEmailAlias, h1, Bool.false_eq_true, if_false]

lemma lookupRecipient_cons_self {k r : List Char} {rest : List (List Char × List Char)} :
    lookupRecipient ((k, r) :: rest) k = r := by
  simp [lookupRecipient, List.find?_cons]

lemma lookupRecipient_of_mem {m : List (List Char × List Char)} {k r : List Char}
    (hnd : (m.map Prod.fst).Nodup) (hmem : (k, r) ∈ m) : lookupRecipient m k = r := by
  induction m with
  | nil => simp at hmem
  | cons p rest ih =>
    simp only [List.map_cons, List.nodup_cons] at hnd
    rcases List.mem_cons.mp hmem with heq | hmem2
    · rw [← heq]
      exact lookupRecipient_cons_self
    · have hk : k ∈ rest.map Prod.fst := List.mem_map.mpr ⟨(k, r), hmem2, rfl⟩
      have hne : p.1 ≠ k := fun he => hnd.1 (he ▸ hk)
      unfold lookupRecipient
      rw [List.find?_cons]
      have : (p.1 == k) = false := beq_eq_false_iff_ne.mpr hne
      rw [this]
      exact ih hnd.2 hmem2

lemma lookupRecipient_mem {m : List (List Char × List Char)} {k r : List Char}
    (hf : lookupRecipient m k = r) (hne : r ≠ []) : (k, r) ∈ m := by
  unfold lookupRecipient at hf
  cases hfind : m.find? (fun p => p.1 == k) with
  | none =>
    rw [hfind] at hf
    exact absurd hf.symm hne
  | some p =>
    rw [hfind] at hf
    have h1 := List.mem_of_find?_eq_some hfind
    have h2 : p.1 = k := by simpa using List.find?_some hfind
    have : p = (k, r) := by
      cases p
      simp_all
    rw [← this]
    exact h1

lemma checkCandidates_sound {h : List Char → List Char → List Nat}
    {m : List (List Char × List Char)} {P act : List Char} {n : Nat} :
    ∀ {ks : List (List Char)} {r : List Char}, checkCandidates h m P act n ks = r → r ≠ [] →
    ∃ k, k ∈ ks ∧ (bufferToHex (h k P)).take (n - 2) = act ∧ lookupRecipient m k = r := by
  intro ks
  induction ks with
  | nil =>
    intro r hr hne
    rw [checkCandidates] at hr
    exact absurd hr.symm hne
  | cons k rest ih =>
    intro r hr hne
    simp only [checkCandidates] at hr
    split at hr
    next hbeq =>
      exact ⟨k, List.mem_cons_self k rest, beq_iff_eq.mp hbeq, hr⟩
    next =>
      obtain ⟨k', hk', hex', hl'⟩ := ih hr hne
      exact ⟨k', List.mem_cons_of_mem k hk', hex', hl'⟩

/-! ## Round-trip validity -/

lemma take_two_append {hint t : List Char} (hl : hint.length = 2) :
    (hint ++ t).take 2 = hint := by
  rw [List.take_append_eq_append_take, hl]
  simp [List.take_of_length_le (le_of_eq hl)]

lemma drop_two_append {hint t : List Char} (hl : hint.length = 2) :
    (hint ++ t).drop 2 = t := by
  rw [List.drop_append_eq_append_drop, List.drop_eq_nil_of_le (le_of_eq hl), hl]
  simp

lemma roundtrip_core (k r : List Char) (parts : List (List Char)) (d : List Char) (n : Nat) (hP : joinParts parts ≠ [])
    (hPdot : (joinParts parts).all isDotChar = true)
    (hk : k ≠ []) (hn2 : 2 ≤ n) (hn66 : n ≤ 66)
    (hd : d ≠ []) (hdat : '@' ∉ d) (hddot : d.all isDotChar = true) :
    validateEmailAlias [(k, r)]
      (some (joinParts parts ++ '-' ::
        ((hintOfKey k ++ (bufferToHex (getHmacSignature k (joinParts parts))).take (n - 2))) ++
        '@' :: d)) n = r := by
  have hhintlen : (hintOfKey k).length = 2 := hintOfKey_length hk
  have htlen : ((bufferToHex (getHmacSignature k (joinParts parts))).take (n - 2)).length
      = n - 2 := by
    rw [List.length_take, bufferToHex_length, getHmacSignature_length]
    omega
  have hHlen : (hintOfKey k ++
      (bufferToHex (getHmacSignature k (joinParts parts))).take (n - 2)).length = n := by
    rw [List.length_append, hhintlen, htlen]
    omega
  have hHhex : (hintOfKey k ++
      (bufferToHex (getHmacSignature k (joinParts parts))).take (n - 2)).all
      isLowerHexDigit = true := by
    rw [List.all_append, hintOfKey_hex,
      all_of_subset (List.take_subset _ _) (bufferToHex_hex _)]
    rfl
  have hs : joinParts parts ++ '-' ::
      ((hintOfKey k ++ (bufferToHex (getHmacSignature k (joinParts parts))).take (n - 2))) ++
      '@' :: d = joinParts parts ++ '-' ::
      (((hintOfKey k ++ (bufferToHex (getHmacSignature k (joinParts parts))).take (n - 2))) ++
      '@' :: d) := by
    simp only [List.cons_append, List.append_assoc]
  have hparse := aliasMatch_of_clean hs hHlen hHhex hd hdat hPdot hddot
  have hHne : (hintOfKey k ++
      (bufferToHex (getHmacSignature k (joinParts parts))).take (n - 2)) ≠ [] := by
    intro he
    have := congrArg List.length he
    rw [hHlen] at this
    simp at this
    omega
  rw [validateEmailAlias, validateWith_parsed _ _ hparse hP hHne (by simp)]
  rw [take_two_append hhintlen, drop_two_append hhintlen]
  simp only [List.map_cons, List.map_nil, List.filter_cons, List.filter_nil,
    beq_self_eq_true, if_true]
  simp only [checkCandidates, beq_self_eq_true, if_true]
  exact lookupRecipient_cons_self

/-! ## generateSecureRandomString -/

lemma base64Char_good (x : Nat) :
    (base64Char x == '=') = false ∧ isBase64UrlChar (urlSafeChar (base64Char x)) = true := by
  rcases Nat.lt_or_ge x 64 with h | h
  · interval_cases x <;> decide
  · have hc : base64Char x = '/' := by
      unfold base64Char
      rw [if_neg (by omega), if_neg (by omega), if_neg (by omega), if_neg (by omega)]
    rw [hc]
    decide

lemma urlChar_ne_pad {c : Char} (h : isBase64UrlChar c = true) : (c == '=') = false := by
  rw [beq_eq_false_iff_ne]
  intro he
  subst he
  revert h
  decide

lemma mem_base64Encode {c : Char} : ∀ {bs : List Nat}, c ∈ base64Encode bs →
    c = '=' ∨ ∃ x, c = base64Char x := by
  intro bs
  induction bs using base64Encode.induct with
  | case1 =>
    intro h
    simp [base64Encode] at h
  | case2 b0 =>
    intro h
    simp only [base64Encode, List.mem_cons, List.not_mem_nil, or_false] at h
    rcases h with h | h | h | h
    · exact Or.inr ⟨_, h⟩
    · exact Or.inr ⟨_, h⟩
    · exact Or.inl h
    · exact Or.inl h
  | case3 b0 b1 =>
    intro h
    simp only [base64Encode, List.mem_cons, List.not_mem_nil, or_false] at h
    rcases h with h | h | h | h
    · exact Or.inr ⟨_, h⟩
    · exact Or.inr ⟨_, h⟩
    · exact Or.inr ⟨_, h⟩
    · exact Or.inl h
  | case4 b0 b1 b2 rest ih =>
    intro h
    simp only [base64Encode, List.mem_cons] at h
    rcases h with h | h | h | h | h
    · exact Or.inr ⟨_, h⟩
    · exact Or.inr ⟨_, h⟩
    · exact Or.inr ⟨_, h⟩
    · exact Or.inr ⟨_, h⟩
    · exact ih h

lemma toUrlSafe_base64_chars (bs : List Nat) :
    ((toUrlSafe (base64Encode bs)).all isBase64UrlChar) = true := by
  rw [List.all_eq_true]
  intro c hc
  unfold toUrlSafe at hc
  rw [List.mem_filter] at hc
  obtain ⟨hmem, hne⟩ := hc
  rw [List.mem_map] at hmem
  obtain ⟨c0, hc0, hmap⟩ := hmem
  rcases mem_base64Encode hc0 with heq | ⟨x, heq⟩
  · subst heq
    rw [← hmap] at hne
    exact absurd hne (by decide)
  · subst heq
    rw [← hmap]
    exact (base64Char_good x).2

lemma mapped_ne_pad (x : Nat) : (urlSafeChar (base64Char x) == '=') = false :=
  urlChar_ne_pad (base64Char_good x).2

lemma toUrlSafe_base64_length (bs : List Nat) :
    (toUrlSafe (base64Encode bs)).length = (4 * bs.length + 2) / 3 := by
  induction bs using base64Encode.induct with
  | case1 => rfl
  | case2 b0 =>
    simp only [base64Encode, toUrlSafe, List.map_cons, List.map_nil, List.filter_cons,
      List.filter_nil]
    rw [mapped_ne_pad (b0 >>> 2), mapped_ne_pad ((b0 &&& 3) <<< 4)]
    have hpad : (urlSafeChar '=' == '=') = true := by decide
    simp only [Bool.not_false, Bool.not_true, hpad, eq_self_iff_true, if_true,
      Bool.false_eq_true, if_false, List.length_cons, List.length_nil]
  | case3 b0 b1 =>
    simp only [base64Encode, toUrlSafe, List.map_cons, List.map_nil, List.filter_cons,
      List.filter_nil]
    rw [mapped_ne_pad (b0 >>> 2), mapped_ne_pad (((b0 &&& 3) <<< 4) ||| (b1 >>> 4)),
      mapped_ne_pad ((b1 &&& 15) <<< 2)]
    have hpad : (urlSafeChar '=' == '=') = true := by decide
    simp only [Bool.not_false, Bool.not_true, hpad, eq_self_iff_true, if_true,
      Bool.false_eq_true, if_false, List.length_cons, List.length_nil]
  | case4 b0 b1 b2 rest ih =>
    simp only [base64Encode, toUrlSafe, List.map_cons, List.filter_cons]
    rw [mapped_ne_pad (b0 >>> 2), mapped_ne_pad (((b0 &&& 3) <<< 4) ||| (b1 >>> 4)),
      mapped_ne_pad (((b1 &&& 15) <<< 2) ||| (b2 >>> 6)),
      mapped_ne_pad (b2 &&& 63)]
    simp only [Bool.not_false, Bool.not_true, eq_self_iff_true, if_true, List.length_cons]
    rw [show List.filter (fun c => !(c == '=')) (List.map urlSafeChar (base64Encode rest))
        = toUrlSafe (base64Encode rest) from rfl, ih]
    omega

lemma generateSecureRandomString_ok (grv : Nat → List Nat) (L : Nat) (hL : 0 < L)
    (hgrv : (grv (bytesNeeded L)).length = bytesNeeded L) :
    ∃ s, generateSecureRandomString grv L = .ok s ∧ s.length = L ∧
      s.all isBase64UrlChar = true := by
  have h0 : (L == 0) = false := by
    rw [beq_eq_false_iff_ne]
    omega
  refine ⟨_, by rw [generateSecureRandomString, h0]; rfl, ?_, ?_⟩
  · rw [List.length_take, toUrlSafe_base64_length, hgrv]
    unfold bytesNeeded
    omega
  · exact all_of_subset (List.take_subset _ _) (toUrlSafe_base64_chars _)

/-! ## Fallible-primitive bridges -/

lemma checkCandidatesE_ok (h : List Char → List Char → List Nat)
    (m : List (List Char × List Char)) (P act : List Char) (n : Nat) :
    ∀ ks, checkCandidatesE (fun k d => .ok (h k d)) m P act n ks =
      .ok (checkCandidates h m P act n ks) := by
  intro ks
  induction ks with
  | nil => rfl
  | cons k rest ih =>
    show (if ((bufferToHex (h k P)).take (n - 2) == act) = true
        then Except.ok (lookupRecipient m k)
        else checkCandidatesE (fun k d => .ok (h k d)) m P act n rest) =
      .ok (if ((bufferToHex (h k P)).take (n - 2) == act) = true then lookupRecipient m k
        else checkCandidates h m P act n rest)
    split
    · rfl
    · exact ih

lemma validateE_ok (h : List Char → List Char → List Nat)
    (m : List (List Char × List Char)) (a : Option (List Char)) (n : Nat) :
    validateEmailAliasE (fun k d => .ok (h k d)) m a n =
      .ok (validateEmailAliasWith h m a n) := by
  cases a with
  | none => rfl
  | some s =>
    cases he : s.isEmpty with
    | true => simp only [validateEmailAliasE, validateEmailAliasWith, he, if_true]
    | false =>
      simp only [validateEmailAliasE, validateEmailAliasWith, he, Bool.false_eq_true, if_false]
      cases hm : aliasMatch n s with
      | none => rfl
      | some t =>
        obtain ⟨A, H, D⟩ := t
        dsimp only
        split
        · rfl
        · exact checkCandidatesE_ok h m A (H.drop 2) n _

lemma validateE_propagates (hE : List Char → List Char → Except String (List Nat))
    (m : List (List Char × List Char)) {a A H D k : List Char} {ks : List (List Char)}
    {e : String} {n : Nat}
    (hm : aliasMatch n a = some (A, H, D)) (hA : A ≠ []) (hH : H ≠ []) (ha : a ≠ [])
    (hcand : (m.map Prod.fst).filter (fun x => hintOfKey x == H.take 2) = k :: ks)
    (herr : hE k A = .error e) :
    validateEmailAliasE hE m (some a) n = .error e := by
  rw [validateE_parsed hE m hm hA hH ha, hcand]
  simp only [checkCandidatesE, herr]
  rfl

/-! ## Validator soundness -/

lemma validate_sound {h : List Char → List Char → List Nat}
    {m : List (List Char × List Char)} {a r : List Char} {n : Nat}
    (hv : validateEmailAliasWith h m (some a) n = r) (hne : r ≠ []) :
    ∃ A H D k, aliasMatch n a = some (A, H, D) ∧ (k, r) ∈ m ∧
      hintOfKey k = H.take 2 ∧ (bufferToHex (h k A)).take (n - 2) = H.drop 2 := by
  simp only [validateEmailAliasWith] at hv
  split at hv
  next => exact absurd hv.symm hne
  next =>
    split at hv
    next => exact absurd hv.symm hne
    next A H D hm =>
      split at hv
      next => exact absurd hv.symm hne
      next =>
        obtain ⟨k, hkmem, hexeq, hlook⟩ := checkCandidates_sound hv hne
        rw [List.mem_filter] at hkmem
        exact ⟨A, H, D, k, hm, lookupRecipient_mem hlook hne,
          beq_iff_eq.mp hkmem.2, hexeq⟩

lemma validateWith_falsy (h : List Char → List Char → List Nat)
    (m : List (List Char × List Char)) {a A H D : List Char} {n : Nat}
    (hm : aliasMatch n a = some (A, H, D)) (hf : A = [] ∨ H = []) :
    validateEmailAliasWith h m (some a) n = [] := by
  simp only [validateEmailAliasWith]
  cases he : a.isEmpty with
  | true => simp
  | false =>
    simp only [Bool.false_eq_true, if_false, hm]
    have : (A.isEmpty || H.isEmpty) = true := by
      rcases hf with hf | hf <;> simp [hf]
    rw [this]
    rfl

lemma find?_filter_of_imp {p q : List Char × List Char → Bool}
    {l : List (List Char × List Char)} (himp : ∀ x, p x = true → q x = true) :
    (l.filter q).find? p = l.find? p := by
  induction l with
  | nil => rfl
  | cons x rest ih =>
    cases hq : q x with
    | true =>
      rw [List.filter_cons_of_pos hq, List.find?_cons, List.find?_cons]
      cases p x <;> simp [ih]
    | false =>
      have hp : p x = false := by
        cases hpx : p x
        · rfl
        · rw [himp x hpx] at hq
          exact hq
      rw [List.filter_cons_of_neg (by simp [hq]), List.find?_cons, hp]
      exact ih

lemma lookupRecipient_filter {m : List (List Char × List Char)} {k : List Char}
    {q : List Char × List Char → Bool} (hq : ∀ p, p.1 = k → q p = true) :
    lookupRecipient (m.filter q) k = lookupRecipient m k := by
  unfold lookupRecipient
  rw [find?_filter_of_imp (fun x hx => hq x (beq_iff_eq.mp hx))]

lemma checkCandidates_congr {h : List Char → List Char → List Nat}
    {m₁ m₂ : List (List Char × List Char)} {P act : List Char} {n : Nat} :
    ∀ {ks : List (List Char)}, (∀ k ∈ ks, lookupRecipient m₁ k = lookupRecipient m₂ k) →
    checkCandidates h m₁ P act n ks = checkCandidates h m₂ P act n ks := by
  intro ks
  induction ks with
  | nil => intro _; rfl
  | cons k rest ih =>
    intro hl
    simp only [checkCandidates]
    split
    · exact hl k (List.mem_cons_self k rest)
    · exact ih (fun k' hk' => hl k' (List.mem_cons_of_mem k hk'))

lemma validate_hint_invariance (h : List Char → List Char → List Nat)
    (m : List (List Char × List Char)) {a A H D : List Char} {n : Nat}
    (hm : aliasMatch n a = some (A, H, D)) :
    validateEmailAliasWith h (m.filter (fun p => hintOfKey p.1 == H.take 2)) (some a) n =
      validateEmailAliasWith h m (some a) n := by
  by_cases hA : A = []
  · rw [validateWith_falsy h _ hm (Or.inl hA), validateWith_falsy h m hm (Or.inl hA)]
  by_cases hH : H = []
  · rw [validateWith_falsy h _ hm (Or.inr hH), validateWith_falsy h m hm (Or.inr hH)]
  have ha : a ≠ [] := by
    intro he
    rw [he] at hm
    rw [show aliasMatch n [] = none from rfl] at hm
    exact Option.noConfusion hm
  rw [validateWith_parsed h _ hm hA hH ha, validateWith_parsed h m hm hA hH ha]
  have hcand : ((m.filter (fun p => hintOfKey p.1 == H.take 2)).map Prod.fst).filter
      (fun k => hintOfKey k == H.take 2) =
      (m.map Prod.fst).filter (fun k => hintOfKey k == H.take 2) := by
    rw [List.filter_map, List.filter_map, List.filter_filter]
    refine congrArg (List.map Prod.fst) ?_
    apply List.filter_congr
    intro x _
    simp [Function.comp]
  rw [hcand]
  apply checkCandidates_congr
  intro k hk
  rw [List.mem_filter] at hk
  exact lookupRecipient_filter (fun p hp => by rw [show hintOfKey p.1 = hintOfKey k from by rw [hp]]; exact hk.2)

/-! ## Tampering with the hash segment -/

lemma all_set {l : List Char} {p : Char → Bool} {j : Nat} {c : Char}
    (hl : l.all p = true) (hc : p c = true) : (l.set j c).all p = true := by
  rw [List.all_eq_true] at *
  intro x hx
  rcases List.mem_or_eq_of_mem_set hx with hmem | heq
  · exact hl x hmem
  · subst heq
    exact hc

lemma drop_beyond {A H D : List Char} {j : Nat} (h : A.length + 1 + H.length + 1 ≤ j) :
    (A ++ '-' :: (H ++ '@' :: D)).drop j = D.drop (j - A.length - H.length - 2) := by
  obtain ⟨t, htj⟩ : ∃ t, j = A.length + 1 + H.length + 1 + t :=
    ⟨j - A.length - H.length - 2, by omega⟩
  subst htj
  have he : A.length + 1 + H.length + 1 + t - A.length - H.length - 2 = t := by omega
  rw [he, List.drop_append_eq_append_drop, List.drop_eq_nil_of_le (by omega)]
  simp only [List.nil_append]
  have e1 : A.length + 1 + H.length + 1 + t - A.length = (H.length + 1 + t) + 1 := by omega
  rw [e1, List.drop_succ_cons, List.drop_append_eq_append_drop,
    List.drop_eq_nil_of_le (by omega)]
  simp only [List.nil_append]
  have e2 : H.length + 1 + t - H.length = t + 1 := by omega
  rw [e2, List.drop_succ_cons]

lemma aliasMatch_set {n : Nat} {a A H D : List Char}
    (hm : aliasMatch n a = some (A, H, D)) {j : Nat} {c : Char}
    (hc : isLowerHexDigit c = true) :
    aliasMatch n (A ++ '-' :: (H.set j c ++ '@' :: D)) = some (A, H.set j c, D) := by
  obtain ⟨hs, hH, hhex, hD, hAdot, hDdot, hmax⟩ := aliasMatch_eq_some hm
  subst hs
  have hhex2 : (H.set j c).all isLowerHexDigit = true := all_set hhex hc
  have hHlen2 : (H.set j c).length = n := by rw [List.length_set]; exact hH
  have hsdot : ∀ j', ((A ++ '-' :: (H ++ '@' :: D)).take j').all isDotChar = true := by
    intro j'
    apply all_of_subset (List.take_subset _ _)
    simp only [List.all_append, List.all_cons, hAdot, hDdot, all_hex_all_dot hhex]
    decide
  apply aliasMatch_intro rfl hHlen2 hhex2 hD hAdot hDdot
  intro j' hj'
  rcases le_or_lt j' (A.length + 1 + (H.set j c).length) with h2 | h2
  · exact splitCheck_none_within rfl hhex2 hj' h2
  · rw [List.length_set] at h2
    cases hsc : splitCheck n (A ++ '-' :: (H.set j c ++ '@' :: D)) j' with
    | none => rfl
    | some t =>
      exfalso
      obtain ⟨A2, H2, D2⟩ := t
      obtain ⟨hA2, hA2l, hs2, hH2, hhex3, hD2, hA2dot, hD2dot⟩ := splitCheck_eq_some hsc
      have hjlen : j' < (A ++ '-' :: (H.set j c ++ '@' :: D)).length := by
        by_contra hcon
        rw [splitCheck_of_length_le (by omega)] at hsc
        exact Option.noConfusion hsc
      have hslen : (A ++ '-' :: (H.set j c ++ '@' :: D)).length
          = (A ++ '-' :: (H ++ '@' :: D)).length := by
        simp [List.length_append, List.length_set]
      have hdropeq : (A ++ '-' :: (H ++ '@' :: D)).drop j'
          = (A ++ '-' :: (H.set j c ++ '@' :: D)).drop j' := by
        rw [drop_beyond (by omega), drop_beyond (by rw [List.length_set]; omega),
          List.length_set]
      have hdrop2 : (A ++ '-' :: (H.set j c ++ '@' :: D)).drop j'
          = '-' :: (H2 ++ '@' :: D2) := by
        conv_lhs => rw [hs2]
        rw [← hA2l, List.drop_left]
      have hs3 : (A ++ '-' :: (H ++ '@' :: D))
          = (A ++ '-' :: (H ++ '@' :: D)).take j' ++ '-' :: (H2 ++ '@' :: D2) := by
        conv_lhs => rw [← List.take_append_drop j' (A ++ '-' :: (H ++ '@' :: D))]
        rw [hdropeq, hdrop2]
      have htl : ((A ++ '-' :: (H ++ '@' :: D)).take j').length = j' := by
        rw [List.length_take]
        rw [← hslen] at *
        omega
      have := splitCheck_intro (A := (A ++ '-' :: (H ++ '@' :: D)).take j')
        (D := D2) hH2 hhex3 hD2 (hsdot j') hD2dot
      rw [← hs3, htl] at this
      rw [hmax j' (by omega)] at this
      exact Option.noConfusion this

/-! ## Hash-length mismatch -/

lemma eq_append_at {X Y X2 Y2 : List Char} (h : X ++ '@' :: Y = X2 ++ '@' :: Y2)
    (hX : '@' ∉ X) (hX2 : '@' ∉ X2) : X = X2 ∧ Y = Y2 := by
  induction X generalizing X2 with
  | nil =>
    cases X2 with
    | nil => simpa using h
    | cons c2 rest2 =>
      simp only [List.nil_append, List.cons_append, List.cons.injEq] at h
      exact absurd (h.1 ▸ List.mem_cons_self c2 rest2) hX2
  | cons c rest ih =>
    cases X2 with
    | nil =>
      simp only [List.cons_append, List.nil_append, List.cons.injEq] at h
      exact absurd (h.1 ▸ List.mem_cons_self c rest) hX
    | cons c2 rest2 =>
      simp only [List.cons_append, List.cons.injEq] at h
      obtain ⟨hc, hrest⟩ := h
      have hXr : '@' ∉ rest := fun hm => hX (List.mem_cons_of_mem c hm)
      have hX2r : '@' ∉ rest2 := fun hm => hX2 (List.mem_cons_of_mem c2 hm)
      obtain ⟨h1, h2⟩ := ih hrest hXr hX2r
      exact ⟨by rw [hc, h1], h2⟩

lemma not_mem_of_all_hex {l : List Char} (h : l.all isLowerHexDigit = true) : '@' ∉ l := by
  intro hm
  exact hex_ne_at ((List.all_eq_true.mp h) _ hm) rfl

lemma generated_mismatch_no_parse {P d seg : List Char}
    (hseg : seg.length = 10) (hseghex : seg.all isLowerHexDigit = true)
    (hPat : '@' ∉ P) (hdat : '@' ∉ d) :
    aliasMatch 8 (P ++ '-' :: (seg ++ '@' :: d)) = none := by
  apply aliasMatch_eq_none
  intro j
  cases hsc : splitCheck 8 (P ++ '-' :: (seg ++ '@' :: d)) j with
  | none => rfl
  | some t =>
    exfalso
    obtain ⟨A2, H2, D2⟩ := t
    obtain ⟨hA2, hA2l, hs2, hH2, hhex2, hD2, hA2dot, hD2dot⟩ := splitCheck_eq_some hsc
    have h1 : (P ++ '-' :: seg) ++ '@' :: d = (A2 ++ '-' :: H2) ++ '@' :: D2 := by
      simp only [List.cons_append, List.append_assoc]
      simpa only [List.cons_append, List.append_assoc] using hs2
    have hX1 : '@' ∉ P ++ '-' :: seg := by
      intro hm
      rcases List.mem_append.mp hm with hm | hm
      · exact hPat hm
      · rcases List.mem_cons.mp hm with hm | hm
        · exact absurd hm (by decide)
        · exact not_mem_of_all_hex hseghex hm
    have hcounts : List.count '@' ((P ++ '-' :: seg) ++ '@' :: d)
        = List.count '@' ((A2 ++ '-' :: H2) ++ '@' :: D2) := by rw [h1]
    have hd1 : (('-' : Char) == '@') = false := by decide
    have hd2 : (('@' : Char) == '@') = true := by decide
    have hcseg : List.count '@' seg = 0 := List.count_eq_zero.mpr (not_mem_of_all_hex hseghex)
    have hcP : List.count '@' P = 0 := List.count_eq_zero.mpr hPat
    have hcd : List.count '@' d = 0 := List.count_eq_zero.mpr hdat
    simp only [List.count_append, List.count_cons, hd1, hd2, if_true, Bool.false_eq_true,
      if_false, hcseg, hcP, hcd] at hcounts
    have hX2 : '@' ∉ A2 ++ '-' :: H2 := by
      rw [← List.count_eq_zero]
      simp only [List.count_append, List.count_cons, hd1, Bool.false_eq_true, if_false]
      omega
    obtain ⟨hXeq, hYeq⟩ := eq_append_at h1 hX1 hX2
    have hlenA : A2.length = P.length + 2 := by
      have hle := congrArg List.length hXeq
      simp only [List.length_append, List.length_cons] at hle
      omega
    have hdropL : (P ++ '-' :: seg).drop (P.length + 2) = seg.drop 1 := by
      rw [List.drop_append_eq_append_drop, List.drop_eq_nil_of_le (by omega)]
      simp only [List.nil_append]
      have e1 : P.length + 2 - P.length = 1 + 1 := by omega
      rw [e1, List.drop_succ_cons]
    have hdropR : (A2 ++ '-' :: H2).drop (P.length + 2) = '-' :: H2 := by
      rw [← hlenA, List.drop_left]
    have hcontra : seg.drop 1 = '-' :: H2 := by
      rw [← hdropL, hXeq, hdropR]
    have hmem : '-' ∈ seg :=
      List.drop_subset _ seg (by rw [hcontra]; exact List.mem_cons_self _ _)
    exact hex_ne_dash ((List.all_eq_true.mp hseghex) _ hmem) rfl

/-! ## Embedding validation against the library's fixed test vector -/

set_option maxRecDepth 10000 in
/-- The concrete generation vector from the test suite: secret key
"test-secret-key-123", parts ["service", "provider"], domain "example.com",
default hash length 8.  This validates the SHA-256, HMAC, UTF-8 and hex
components of the embedding end to end. -/
theorem generate_fixed_vector :
    generateEmailAlias "test-secret-key-123".data ["service".data, "provider".data]
      "example.com".data 8 = .ok "service-provider-74e423d7@example.com".data := by
  rfl

/-! ## The claims -/

set_option maxRecDepth 10000 in
/-- C1 counterexample: with the empty domain (one of the quantified-over domain
strings), the generated alias ends in "@" and the validation regex requires a
non-empty domain, so validation returns "" instead of the recipient "r". -/
theorem C1_counterexample :
    generateEmailAlias ['k'] [['a']] [] 8 = .ok "a-6b78da91@".data ∧
    validateEmailAlias [(['k'], ['r'])] (some "a-6b78da91@".data) 8 = [] ∧
    (['r'] : List Char) ≠ [] := by
  refine ⟨by rfl, by decide, by decide⟩

/-- C1 (amended): round-trip validity holds under the side conditions the
parser forces: the joined alias parts are non-empty and free of line
terminators, the secret key is non-empty (so the key hint is 2 hex chars),
2 ≤ hashLength ≤ 66 (so the hash segment has exactly hashLength chars), and
the domain is non-empty, free of "@" and of line terminators (so the greedy
regex parses the alias back at the generated split). -/
theorem C1_roundtrip (k r : List Char) (parts : List (List Char)) (d : List Char) (n : Nat)
    (hp : parts ≠ []) (hP : joinParts parts ≠ [])
    (hPdot : (joinParts parts).all isDotChar = true)
    (hk : k ≠ []) (hn2 : 2 ≤ n) (hn66 : n ≤ 66)
    (hd : d ≠ []) (hdat : '@' ∉ d) (hddot : d.all isDotChar = true) :
    ∃ a, generateEmailAlias k parts d n = .ok a ∧
      validateEmailAlias [(k, r)] (some a) n = r :=
  ⟨_, generateEmailAlias_eq hp, roundtrip_core k r parts d n hP hPdot hk hn2 hn66 hd hdat hddot⟩

/-- C1 witness: the round-trip theorem applied at a concrete input. -/
theorem C1_roundtrip_witness :
    ∃ a, generateEmailAlias ['k'] [['a']] ['d'] 8 = .ok a ∧
      validateEmailAlias [(['k'], ['r'])] (some a) 8 = ['r'] :=
  C1_roundtrip ['k'] ['r'] [['a']] ['d'] 8 (by decide) (by decide) (by decide) (by decide)
    (by decide) (by decide) (by decide) (by decide) (by decide)

/-- C2 counterexample: the candidate loop has no try/catch, so an error from
the HMAC primitive while checking the (sole) candidate key propagates out of
validateEmailAlias instead of being treated as a non-match. -/
theorem C2_counterexample :
    validateEmailAliasE (fun _ _ => .error "hmac failure") [(['a'], ['r'])]
      (some "x-61@d".data) 2 = .error "hmac failure" := by
  rfl

/-- C2 (amended): an error raised by the HMAC primitive while checking the
first candidate key propagates to the caller (the promise rejects); it is not
caught inside validateEmailAlias. -/
theorem C2_propagation (hE : List Char → List Char → Except String (List Nat))
    (m : List (List Char × List Char)) (a A H D k : List Char) (ks : List (List Char))
    (e : String) (n : Nat)
    (hm : aliasMatch n a = some (A, H, D)) (hA : A ≠ []) (hH : H ≠ []) (ha : a ≠ [])
    (hcand : (m.map Prod.fst).filter (fun x => hintOfKey x == H.take 2) = k :: ks)
    (herr : hE k A = .error e) :
    validateEmailAliasE hE m (some a) n = .error e :=
  validateE_propagates hE m hm hA hH ha hcand herr

/-- C2 witness: the propagation theorem applied at a concrete input. -/
theorem C2_propagation_witness :
    validateEmailAliasE (fun _ _ => .error "boom") [(['a'], ['r'])]
      (some "x-61@d".data) 2 = .error "boom" :=
  C2_propagation _ _ "x-61@d".data ['x'] "61".data ['d'] ['a'] [] "boom" 2
    (by decide) (by decide) (by decide) (by decide) (by decide) rfl

/-- C3 counterexample: generateEmailAlias performs no hashLength validation;
with hashLength = 1 it returns an alias (whose hash segment is just the
2-char key hint) instead of rejecting with an error. -/
theorem C3_counterexample :
    generateEmailAlias ['k'] [['a']] ['d'] 1 = .ok "a-6b@d".data := by
  rfl

/-- C3 (amended): for hashLength < 2 generateEmailAlias does not reject: the
truncated hash is empty (substring clamps the negative end index to 0) and
the returned alias is prefix-keyHint@domain. -/
theorem C3_no_rejection (k : List Char) (parts : List (List Char)) (d : List Char) (n : Nat)
    (hp : parts ≠ []) (hn : n < 2) :
    generateEmailAlias k parts d n =
      .ok (joinParts parts ++ '-' :: hintOfKey k ++ '@' :: d) := by
  rw [generateEmailAlias_eq hp]
  have h0 : n - 2 = 0 := by omega
  rw [h0, List.take_zero, List.append_nil]

/-- C3 witness: the no-rejection theorem applied at a concrete input. -/
theorem C3_no_rejection_witness :
    generateEmailAlias ['k'] [['a']] ['d'] 0 =
      .ok (joinParts [['a']] ++ '-' :: hintOfKey ['k'] ++ '@' :: ['d']) :=
  C3_no_rejection ['k'] [['a']] ['d'] 0 (by decide) (by decide)

/-- C4: validateEmailAlias is total on untrusted input: null/undefined input
returns "", any alias the regex rejects returns "" without the HMAC primitive
ever being invoked (so no error can propagate there, whatever the primitive
does), and with the total HMAC-SHA-256 primitive the function never errors on
any input at all. -/
theorem C4_validate_total :
    (∀ hE m n, validateEmailAliasE hE m none n = .ok []) ∧
    (∀ (hE : List Char → List Char → Except String (List Nat)) m n a,
      a = [] ∨ aliasMatch n a = none → validateEmailAliasE hE m (some a) n = .ok []) ∧
    (∀ (h : List Char → List Char → List Nat) m n a,
      validateEmailAliasE (fun x y => .ok (h x y)) m a n =
        .ok (validateEmailAliasWith h m a n)) := by
  refine ⟨fun _ _ _ => rfl, ?_, fun h m n a => validateE_ok h m a n⟩
  intro hE m n a hcase
  rcases hcase with ha | hm
  · subst ha
    rfl
  · cases he : a.isEmpty with
    | true => simp only [validateEmailAliasE, he, if_true]
    | false => simp only [validateEmailAliasE, he, Bool.false_eq_true, if_false, hm]

/-- C4 witness: the totality theorem applied at concrete inputs, including a
primitive that always raises. -/
theorem C4_validate_total_witness :
    validateEmailAliasE (fun _ _ => .error "boom") [(['k'], ['r'])]
      (some "plainstring".data) 8 = .ok [] ∧
    validateEmailAliasE (fun _ _ => .error "boom") [(['k'], ['r'])] none 8 = .ok [] :=
  ⟨C4_validate_total.2.1 _ _ _ _ (Or.inr (by decide)), C4_validate_total.1 _ _ _⟩

/-- C5 counterexample: for the empty secret key the UTF-8 encoding has no
first byte, the key hint is the empty string rather than 2 hex characters,
and the generated alias (here with hashLength 2, so an empty truncated hash)
has a hash segment of 0 characters instead of 2. -/
theorem C5_counterexample :
    ¬ ∃ hint thash : List Char,
      generateEmailAlias [] [['a']] ['d'] 2
        = .ok (['a'] ++ '-' :: (hint ++ thash) ++ '@' :: ['d']) ∧
      hint.length = 2 ∧ thash.length = 0 := by
  intro ⟨hint, thash, heq, h2, h0⟩
  have hgen : generateEmailAlias [] [['a']] ['d'] 2 = .ok "a-@d".data := by rfl
  rw [hgen] at heq
  simp only [Except.ok.injEq] at heq
  have hlen := congrArg List.length heq
  simp only [List.length_append, List.length_cons, h2, h0] at hlen
  simp at hlen

/-- C5 (amended): for a non-empty secret key and 2 ≤ hashLength ≤ 66 the
alias format is exactly join(parts,"-") ++ "-" ++ keyHint ++ truncatedHash ++
"@" ++ domain, where keyHint is the 2 lowercase hex chars of the first UTF-8
byte of the key and truncatedHash is the first hashLength - 2 lowercase hex
chars of HMAC-SHA-256(key, join(parts,"-")). -/
theorem C5_format (k : List Char) (parts : List (List Char)) (d : List Char) (n : Nat)
    (hp : parts ≠ []) (hk : k ≠ []) (hn2 : 2 ≤ n) (hn66 : n ≤ 66) :
    ∃ b rest, textEncode k = b :: rest ∧
      generateEmailAlias k parts d n = .ok (joinParts parts ++ '-' ::
        (byteToHex b ++ (bufferToHex (getHmacSignature k (joinParts parts))).take (n - 2)) ++
        '@' :: d) ∧
      (byteToHex b).length = 2 ∧ (byteToHex b).all isLowerHexDigit = true ∧
      ((bufferToHex (getHmacSignature k (joinParts parts))).take (n - 2)).length = n - 2 ∧
      ((bufferToHex (getHmacSignature k (joinParts parts))).take (n - 2)).all
        isLowerHexDigit = true := by
  obtain ⟨b, rest, henc, hhint⟩ := hintOfKey_eq_byteToHex hk
  refine ⟨b, rest, henc, ?_, rfl, byteToHex_hex b, ?_,
    all_of_subset (List.take_subset _ _) (bufferToHex_hex _)⟩
  · rw [generateEmailAlias_eq hp, ← hhint]
  · rw [List.length_take, bufferToHex_length, getHmacSignature_length]
    omega

/-- C5 witness: the format theorem applied at a concrete input. -/
theorem C5_format_witness :
    ∃ b rest, textEncode ['k'] = b :: rest ∧
      generateEmailAlias ['k'] [['a']] ['d'] 2 = .ok (joinParts [['a']] ++ '-' ::
        (byteToHex b ++ (bufferToHex (getHmacSignature ['k'] (joinParts [['a']]))).take (2 - 2))
        ++ '@' :: ['d']) ∧
      (byteToHex b).length = 2 ∧ (byteToHex b).all isLowerHexDigit = true ∧
      ((bufferToHex (getHmacSignature ['k'] (joinParts [['a']]))).take (2 - 2)).length = 2 - 2 ∧
      ((bufferToHex (getHmacSignature ['k'] (joinParts [['a']]))).take (2 - 2)).all
        isLowerHexDigit = true :=
  C5_format ['k'] [['a']] ['d'] 2 (by decide) (by decide) (by decide) (by decide)

/-- C6: validator soundness: a non-empty result r pins down a parsed split
(A, H, D) of the alias and a key k in the map mapped to r whose 2-hex-char
hint equals the first 2 characters of the parsed hash segment and whose
truncated HMAC over the parsed prefix equals the remaining characters; and
entries whose hint differs from the parsed hint never affect the result
(restricting the map to hint-matching entries leaves the result unchanged). -/
theorem C6_soundness (m : List (List Char × List Char)) (a r : List Char) (n : Nat)
    (hv : validateEmailAlias m (some a) n = r) (hne : r ≠ []) :
    (∃ A H D k, aliasMatch n a = some (A, H, D) ∧ (k, r) ∈ m ∧
      hintOfKey k = H.take 2 ∧
      (bufferToHex (getHmacSignature k A)).take (n - 2) = H.drop 2) ∧
    (∀ A H D, aliasMatch n a = some (A, H, D) →
      validateEmailAlias (m.filter (fun p => hintOfKey p.1 == H.take 2)) (some a) n =
        validateEmailAlias m (some a) n) :=
  ⟨validate_sound hv hne, fun _ _ _ hm => validate_hint_invariance getHmacSignature m hm⟩

/-- C6 witness: the soundness theorem applied at a concrete input (hash length
2, where validation succeeds on the key hint alone). -/
theorem C6_soundness_witness :
    (∃ A H D k, aliasMatch 2 "x-61@d".data = some (A, H, D) ∧ (k, ['r']) ∈ [(['a'], ['r'])] ∧
      hintOfKey k = H.take 2 ∧
      (bufferToHex (getHmacSignature k A)).take (2 - 2) = H.drop 2) ∧
    (∀ A H D, aliasMatch 2 "x-61@d".data = some (A, H, D) →
      validateEmailAlias ([(['a'], ['r'])].filter (fun p => hintOfKey p.1 == H.take 2))
        (some "x-61@d".data) 2 =
        validateEmailAlias [(['a'], ['r'])] (some "x-61@d".data) 2) :=
  C6_soundness [(['a'], ['r'])] "x-61@d".data ['r'] 2 (by decide) (by decide)

/-- C7 counterexample: with hashLength 2 and two keys of distinct hints, the
alias x-61@d validates to "ra"; replacing the one hex character '1' of its
signature segment by '2' (so the segment "61" becomes "62" = set 1 '2')
yields x-62@d, which validates to "rb", not "". -/
theorem C7_counterexample :
    validateEmailAlias [(['a'], "ra".data), (['b'], "rb".data)] (some "x-61@d".data) 2
      = "ra".data ∧
    "61".data.set 1 '2' = "62".data ∧
    validateEmailAlias [(['a'], "ra".data), (['b'], "rb".data)] (some "x-62@d".data) 2
      = "rb".data ∧
    ("rb".data : List Char) ≠ [] := by
  refine ⟨by decide, by decide, by decide, by decide⟩

lemma set_ne_of_ne {l : List Char} {j : Nat} (h : j < l.length) {c : Char}
    (hne : c ≠ l.get ⟨j, h⟩) : l.set j c ≠ l := by
  intro he
  have h2 : j < (l.set j c).length := by
    rw [List.length_set]
    exact h
  have h3 : (l.set j c)[j] = c := List.getElem_set_self h2
  have h4 : (l.set j c)[j] = l[j] := List.getElem_of_eq he h2
  rw [h3] at h4
  rw [List.get_eq_getElem] at hne
  exact hne h4

/-- C7 (amended): tamper rejection holds for a singleton key map: if
validation of an alias parsed as (A, H, D) returns a non-empty recipient,
then replacing any single character of the hash segment H by a different
lowercase hex character makes validation return "". -/
theorem C7_tamper (k r a : List Char) (n : Nat) (A H D : List Char) (j : Nat)
    (c : Char) (hj : j < H.length)
    (hv : validateEmailAlias [(k, r)] (some a) n ≠ [])
    (hm : aliasMatch n a = some (A, H, D))
    (hc : isLowerHexDigit c = true) (hcne : c ≠ H.get ⟨j, hj⟩) :
    validateEmailAlias [(k, r)] (some (A ++ '-' :: (H.set j c ++ '@' :: D))) n = [] := by
  obtain ⟨A0, H0, D0, k0, hm0, hmem, hhint, hhash⟩ :=
    validate_sound (h := getHmacSignature) rfl hv
  have htrip : (A, H, D) = (A0, H0, D0) := Option.some.inj (hm.symm.trans hm0)
  simp only [Prod.mk.injEq] at htrip
  obtain ⟨hA0, hH0, hD0⟩ := htrip
  subst hA0 hH0 hD0
  simp only [List.mem_singleton, Prod.mk.injEq] at hmem
  obtain ⟨hk0, hr0⟩ := hmem
  have hk0s := hk0.symm
  subst hk0s
  have hA : A ≠ [] := fun he => hv (validateWith_falsy getHmacSignature [(k, r)] hm (Or.inl he))
  have hH : H ≠ [] := fun he => hv (validateWith_falsy getHmacSignature [(k, r)] hm (Or.inr he))
  have hparse2 := aliasMatch_set hm (j := j) (c := c) hc
  have hsetne : H.set j c ≠ [] := by
    intro he
    have hle := congrArg List.length he
    rw [List.length_set] at hle
    simp only [List.length_nil] at hle
    omega
  rw [validateEmailAlias, validateWith_parsed getHmacSignature _ hparse2 hA hsetne (by simp)]
  simp only [List.map_cons, List.map_nil, List.filter_cons, List.filter_nil]
  rcases lt_or_ge j 2 with hj2 | hj2
  · have hcond : (hintOfKey k == (H.set j c).take 2) = false := by
      rw [beq_eq_false_iff_ne, hhint, List.set_take]
      intro he
      have hlt : j < (H.take 2).length := by
        rw [List.length_take]
        omega
      have hc2 : c ≠ (H.take 2).get ⟨j, hlt⟩ := by
        rw [List.get_eq_getElem, List.getElem_take]
        rw [List.get_eq_getElem] at hcne
        exact hcne
      exact set_ne_of_ne hlt hc2 he.symm
    rw [hcond]
    simp only [Bool.false_eq_true, if_false]
    rfl
  · have hcond : (hintOfKey k == (H.set j c).take 2) = true := by
      rw [List.set_take, List.set_eq_of_length_le (by rw [List.length_take]; omega), hhint,
        beq_self_eq_true]
    rw [hcond]
    simp only [if_true]
    simp only [checkCandidates]
    have hexp : ((bufferToHex (getHmacSignature k A)).take (n - 2)
        == (H.set j c).drop 2) = false := by
      rw [beq_eq_false_iff_ne, hhash, List.drop_set, if_neg (by omega)]
      have hlt : j - 2 < (H.drop 2).length := by
        rw [List.length_drop]
        omega
      have hc2 : c ≠ (H.drop 2).get ⟨j - 2, hlt⟩ := by
        rw [List.get_eq_getElem, List.getElem_drop]
        simp only [(by omega : 2 + (j - 2) = j)]
        rw [List.get_eq_getElem] at hcne
        exact hcne
      intro he
      exact set_ne_of_ne hlt hc2 he.symm
    rw [hexp]
    simp only [Bool.false_eq_true, if_false]

/-- C7 witness: the tamper theorem applied at a concrete input (hash length 2,
singleton map: flipping a hint character makes validation fail). -/
theorem C7_tamper_witness :
    validateEmailAlias [(['a'], ['r'])]
      (some (['x'] ++ '-' :: ("61".data.set 1 '2' ++ '@' :: ['d']))) 2 = [] :=
  C7_tamper ['a'] ['r'] "x-61@d".data 2 ['x'] "61".data ['d'] 1 '2' (by decide)
    (by decide) (by decide) (by decide) (by decide)
set_option maxRecDepth 10000 in
/-- C8 counterexample: with a domain that itself contains a dash, hex chars
and an "@" (all allowed domain strings), the greedy regex re-parses the
10-hash-length alias at an 8-char split inside the domain, and the crafted
inner hash makes validation with hashLength 8 return the recipient "r"
instead of "". -/
theorem C8_counterexample :
    generateEmailAlias ['a'] [['p']] "x-61d8faf3@y".data 10
      = .ok "p-61deb66fa1@x-61d8faf3@y".data ∧
    validateEmailAlias [(['a'], ['r'])] (some "p-61deb66fa1@x-61d8faf3@y".data) 8 = ['r'] ∧
    (['r'] : List Char) ≠ [] := by
  refine ⟨by rfl, by decide, by decide⟩

/-- C8 (amended): the length-mismatch rejection holds for every key map when
the secret key is non-empty and neither the joined alias parts nor the domain
contain an "@": the 10-char hash segment can then never re-parse as an 8-char
segment, so validation with the default hashLength 8 returns "". -/
theorem C8_length_mismatch (k : List Char) (parts : List (List Char)) (d : List Char)
    (m : List (List Char × List Char)) (hp : parts ≠ []) (hk : k ≠ [])
    (hPat : '@' ∉ joinParts parts) (hdat : '@' ∉ d) :
    ∃ a, generateEmailAlias k parts d 10 = .ok a ∧
      validateEmailAlias m (some a) 8 = [] := by
  refine ⟨_, generateEmailAlias_eq hp, ?_⟩
  rw [validateEmailAlias]
  apply validateWith_unparsed
  have hform : joinParts parts ++ '-' ::
      (hintOfKey k ++ (bufferToHex (getHmacSignature k (joinParts parts))).take (10 - 2)) ++
      '@' :: d = joinParts parts ++ '-' ::
      ((hintOfKey k ++ (bufferToHex (getHmacSignature k (joinParts parts))).take (10 - 2)) ++
      '@' :: d) := by
    simp only [List.cons_append, List.append_assoc]
  rw [hform]
  apply generated_mismatch_no_parse
  · rw [List.length_append, hintOfKey_length hk, List.length_take, bufferToHex_length,
      getHmacSignature_length]
    omega
  · rw [List.all_append, hintOfKey_hex,
      all_of_subset (List.take_subset _ _) (bufferToHex_hex _)]
    rfl
  · exact hPat
  · exact hdat

/-- C8 witness: the length-mismatch theorem applied at a concrete input. -/
theorem C8_length_mismatch_witness :
    ∃ a, generateEmailAlias ['k'] [['a']] ['d'] 10 = .ok a ∧
      validateEmailAlias [(['k'], ['r'])] (some a) 8 = [] :=
  C8_length_mismatch ['k'] [['a']] ['d'] [(['k'], ['r'])] (by decide) (by decide)
    (by decide) (by decide)

/-- C9: generateSecureRandomString returns, for every positive length and
whatever bytes the platform random source yields (of the size the code
requests), a string of exactly the requested length over [A-Za-z0-9_-]. -/
theorem C9_random_string (getRandomValues : Nat → List Nat) (len : Nat) (hL : 0 < len)
    (hgrv : (getRandomValues (bytesNeeded len)).length = bytesNeeded len) :
    ∃ s, generateSecureRandomString getRandomValues len = .ok s ∧ s.length = len ∧
      s.all isBase64UrlChar = true :=
  generateSecureRandomString_ok getRandomValues len hL hgrv

/-- C9 witness: the random-string theorem applied at a concrete input. -/
theorem C9_random_string_witness :
    ∃ s, generateSecureRandomString (fun sz => List.replicate sz 0) 4 = .ok s ∧
      s.length = 4 ∧ s.all isBase64UrlChar = true :=
  C9_random_string (fun sz => List.replicate sz 0) 4 (by decide) (by simp)

/-- C10 counterexample: the alias a-6b@c-7a@e has the claimed form
prefix-6b@domain with prefix "a" and domain "c-7a@e", and the map holds the
key "k" whose first UTF-8 byte encodes to "6b"; but the greedy regex parses
at the later dash inside the domain (hint "7a"), so validateEmailAlias with
hashLength 2 returns "" rather than that key's recipient "r". -/
theorem C10_counterexample :
    "a-6b@c-7a@e".data = ['a'] ++ '-' :: ("6b".data ++ '@' :: "c-7a@e".data) ∧
    hintOfKey ['k'] = "6b".data ∧
    validateEmailAlias [(['k'], ['r'])] (some "a-6b@c-7a@e".data) 2 = [] ∧
    (['r'] : List Char) ≠ [] := by
  refine ⟨by decide, by decide, by decide, by decide⟩

/-- C10 (amended): degenerate acceptance at hashLength 2 holds when the
prefix and domain are unambiguous (non-empty, free of "@" and of line
terminators): for every HMAC primitive (no effective HMAC check), validation
returns the looked-up recipient of the first key in enumeration order whose
hint equals the alias's 2 hex chars, and with distinct keys that is exactly
that key's mapped recipient. -/
theorem C10_degenerate (hmac : List Char → List Char → List Nat)
    (m : List (List Char × List Char)) (P h2 D k : List Char) (ks : List (List Char))
    (hP : P ≠ []) (hPdot : P.all isDotChar = true)
    (hh2 : h2.length = 2) (hhex : h2.all isLowerHexDigit = true)
    (hD : D ≠ []) (hDdot : D.all isDotChar = true) (hDat : '@' ∉ D)
    (hcand : (m.map Prod.fst).filter (fun x => hintOfKey x == h2) = k :: ks) :
    validateEmailAliasWith hmac m (some (P ++ '-' :: (h2 ++ '@' :: D))) 2 =
      lookupRecipient m k ∧
    ∀ rk, (m.map Prod.fst).Nodup → (k, rk) ∈ m →
      validateEmailAliasWith hmac m (some (P ++ '-' :: (h2 ++ '@' :: D))) 2 = rk := by
  have hparse := aliasMatch_of_clean rfl hh2 hhex hD hDat hPdot hDdot
  have hh2ne : h2 ≠ [] := by
    intro he
    rw [he] at hh2
    exact absurd hh2 (by decide)
  have hmain : validateEmailAliasWith hmac m (some (P ++ '-' :: (h2 ++ '@' :: D))) 2 =
      lookupRecipient m k := by
    rw [validateWith_parsed hmac m hparse hP hh2ne (by simp)]
    rw [List.take_of_length_le (le_of_eq hh2), List.drop_eq_nil_of_le (le_of_eq hh2), hcand]
    simp only [checkCandidates]
    simp only [Nat.sub_self, List.take_zero]
    rfl
  refine ⟨hmain, fun rk hnd hmem => ?_⟩
  rw [hmain]
  exact lookupRecipient_of_mem hnd hmem

/-- C10 witness: the degenerate-acceptance theorem applied at a concrete
input with two keys; the second key's hint matches and its recipient is
returned with no effective hash comparison. -/
theorem C10_degenerate_witness :
    (validateEmailAliasWith getHmacSignature [(['a'], "ra".data), (['b'], "rb".data)]
      (some (['x'] ++ '-' :: ("62".data ++ '@' :: ['d']))) 2 =
      lookupRecipient [(['a'], "ra".data), (['b'], "rb".data)] ['b']) ∧
    ∀ rk, ([(['a'], "ra".data), (['b'], "rb".data)].map Prod.fst).Nodup →
      (['b'], rk) ∈ [(['a'], "ra".data), (['b'], "rb".data)] →
      validateEmailAliasWith getHmacSignature [(['a'], "ra".data), (['b'], "rb".data)]
        (some (['x'] ++ '-' :: ("62".data ++ '@' :: ['d']))) 2 = rk :=
  C10_degenerate getHmacSignature [(['a'], "ra".data), (['b'], "rb".data)] ['x'] "62".data
    ['d'] ['b'] [] (by decide) (by decide) (by decide) (by decide) (by decide) (by decide)
    (by decide) (by decide)
